import Mathlib

/-!
Verification development for the StudentioBot repository.

The repository's two core pieces are embedded shallowly:
* the Telegram launch-data verifier and identity extractor
  (src/lib/verifyTelegram.js) together with the tip API handler
  (src/pages/api/tip.js), and
* the server-sent-event stream consumers
  (src/frontend/pages/index.tsx and the unnamed page variants).

JavaScript strings are modelled as lists of Unicode scalar values
(`JSString`), byte sequences as lists of naturals below 256, and the
HMAC-SHA-256 primitive of the Web Crypto API as an explicit function
parameter (it is external to the repository; the spec's HMAC-engine
contract fixes its 256-bit digest length where a theorem needs it).
-/

namespace StudentioBot

/-- JavaScript strings, modelled as lists of Unicode scalar values. -/
abbrev JSString := List Char

/-- Embed a Lean string literal as a `JSString`. -/
def js (s : String) : JSString := s.data

/-! ### UTF-8 encoding and decoding (TextEncoder / TextDecoder) -/

/-- `TextEncoder.encode` on one scalar value: its UTF-8 bytes. -/
def utf8EncodeChar (c : Char) : List Nat :=
  let n := c.toNat
  if n < 0x80 then [n]
  else if n < 0x800 then [0xC0 + n / 64, 0x80 + n % 64]
  else if n < 0x10000 then [0xE0 + n / 4096, 0x80 + (n / 64) % 64, 0x80 + n % 64]
  else [0xF0 + n / 262144, 0x80 + (n / 4096) % 64, 0x80 + (n / 64) % 64, 0x80 + n % 64]

/-- `TextEncoder.encode`: UTF-8 bytes of a string. -/
def utf8Encode (s : JSString) : List Nat := s.flatMap utf8EncodeChar

/-- Number of continuation bytes demanded by a UTF-8 lead byte,
`none` for bytes that can never start a sequence. -/
def utf8Need (b : Nat) : Option Nat :=
  if b < 0x80 then some 0
  else if 0xC0 ≤ b && b ≤ 0xDF then some 1
  else if 0xE0 ≤ b && b ≤ 0xEF then some 2
  else if 0xF0 ≤ b && b ≤ 0xF7 then some 3
  else none

/-- Recognise a UTF-8 continuation byte. -/
def utf8IsCont (b : Nat) : Bool := 0x80 ≤ b && b ≤ 0xBF

/-- Assemble the scalar value of a decoded sequence. -/
def utf8Scalar (lead : Nat) (conts : List Nat) : Nat :=
  let base :=
    match conts.length with
    | 0 => lead
    | 1 => lead % 32
    | 2 => lead % 16
    | _ => lead % 8
  conts.foldl (fun acc b => acc * 64 + b % 64) base

/-- U+FFFD, emitted for bytes that do not decode. -/
def replacementChar : Char := '�'

/-- Turn a scalar value into a character, substituting U+FFFD for
values outside the Unicode scalar range (surrogates, overflow). -/
def charOfScalar (n : Nat) : Char :=
  if Nat.isValidChar n then Char.ofNat n else replacementChar

/-- One pass of the streaming UTF-8 decoder: decode as much of the
byte list as possible, returning the decoded text and the trailing
bytes of an incomplete (but so far well-formed) sequence, which a
`TextDecoder` with `stream: true` retains for the next chunk.
Invalid bytes decode to U+FFFD one byte at a time. -/
def utf8ConsumeFuel : Nat → List Nat → JSString × List Nat
  | _, [] => ([], [])
  | 0, bs => ([], bs)
  | fuel + 1, b :: rest =>
    match utf8Need b with
    | none =>
      let r := utf8ConsumeFuel fuel rest
      (replacementChar :: r.1, r.2)
    | some need =>
      if need ≤ rest.length then
        let conts := rest.take need
        if conts.all utf8IsCont then
          let r := utf8ConsumeFuel fuel (rest.drop need)
          (charOfScalar (utf8Scalar b conts) :: r.1, r.2)
        else
          let r := utf8ConsumeFuel fuel rest
          (replacementChar :: r.1, r.2)
      else
        if rest.all utf8IsCont then ([], b :: rest)
        else
          let r := utf8ConsumeFuel fuel rest
          (replacementChar :: r.1, r.2)

/-- See `utf8ConsumeFuel`; a fuel of one unit per byte always
suffices because every step consumes at least one byte. -/
def utf8Consume (bs : List Nat) : JSString × List Nat :=
  utf8ConsumeFuel bs.length bs

/-- Non-streaming UTF-8 decode: an incomplete trailing sequence
decodes to replacement characters. -/
def utf8DecodeAll (bs : List Nat) : JSString :=
  let r := utf8Consume bs
  r.1 ++ r.2.map (fun _ => replacementChar)

/-- `TextDecoder.decode(chunk, { stream: true })`: feed one chunk,
carrying the pending bytes of a split sequence across calls. -/
def textDecodeChunk (pending chunk : List Nat) : List Nat × JSString :=
  let r := utf8Consume (pending ++ chunk)
  (r.2, r.1)

/-! ### application/x-www-form-urlencoded parsing (URLSearchParams) -/

/-- Value of a hexadecimal digit character (0-9, a-f or A-F, by code
point). -/
def hexDigitVal (c : Char) : Option Nat :=
  let n := c.toNat
  if 48 ≤ n && n ≤ 57 then some (n - 48)
  else if 97 ≤ n && n ≤ 102 then some (n - 87)
  else if 65 ≤ n && n ≤ 70 then some (n - 55)
  else none

/-- Percent-decoding of one form-urlencoded token into bytes:
`+` becomes a space, `%xy` with two hex digits becomes one byte,
anything else contributes its own UTF-8 bytes. -/
def percentDecodeBytesFuel : Nat → JSString → List Nat
  | _, [] => []
  | 0, _ => []
  | fuel + 1, '%' :: c1 :: c2 :: rest =>
    match hexDigitVal c1, hexDigitVal c2 with
    | some h, some l => (16 * h + l) :: percentDecodeBytesFuel fuel rest
    | _, _ => utf8EncodeChar '%' ++ percentDecodeBytesFuel fuel (c1 :: c2 :: rest)
  | fuel + 1, '+' :: rest => 32 :: percentDecodeBytesFuel fuel rest
  | fuel + 1, c :: rest => utf8EncodeChar c ++ percentDecodeBytesFuel fuel rest

/-- See `percentDecodeBytesFuel`; one fuel unit per character always
suffices. -/
def percentDecodeBytes (s : JSString) : List Nat :=
  percentDecodeBytesFuel s.length s

/-- Decode one form-urlencoded key or value. -/
def formDecode (s : JSString) : JSString := utf8DecodeAll (percentDecodeBytes s)

/-- Split a string at every occurrence of a separator character. -/
def splitOnChar (sep : Char) : JSString → List JSString
  | [] => [[]]
  | c :: rest =>
    let r := splitOnChar sep rest
    if c = sep then [] :: r
    else
      match r with
      | [] => [[c]]
      | h :: t => (c :: h) :: t

/-- Split a `key=value` token at its first `=`; `none` when the
token has no `=` at all. -/
def splitFirstEq : JSString → JSString × Option JSString
  | [] => ([], none)
  | '=' :: rest => ([], some rest)
  | c :: rest =>
    let r := splitFirstEq rest
    (c :: r.1, r.2)

/-- `new URLSearchParams(raw).entries()` in encounter order: strip a
single leading `?`, split on `&`, drop empty tokens, split each token
at its first `=` (a token without `=` is a key with empty value), and
percent-decode keys and values. -/
def parseParams (raw : JSString) : List (JSString × JSString) :=
  let raw' := match raw with | '?' :: r => r | r => r
  (splitOnChar '&' raw').filterMap (fun seg =>
    if seg = [] then none
    else
      let kv := splitFirstEq seg
      some (formDecode kv.1, formDecode (kv.2.getD [])))

/-- First-match association lookup (own-property read on the data
object, and also `URLSearchParams.get`, which returns the first pair
with the given name). -/
def lookupStr : List (JSString × JSString) → JSString → Option JSString
  | [], _ => none
  | (k, v) :: rest, key => if k = key then some v else lookupStr rest key

/-- `data[k] = v` on a plain JavaScript object: overwrite an existing
own property in place, else append; an assignment to the key
`__proto__` targets the prototype setter and creates no own property,
so it is dropped. -/
def objInsert (m : List (JSString × JSString)) (k v : JSString) :
    List (JSString × JSString) :=
  if k = js "__proto__" then m
  else if (lookupStr m k).isSome then
    m.map (fun p => if p.1 = k then (k, v) else p)
  else m ++ [(k, v)]

/-- `const data = {}; for (const [k, v] of params.entries()) data[k] = v;`
Later occurrences of a key overwrite earlier ones. -/
def buildData (ps : List (JSString × JSString)) : List (JSString × JSString) :=
  ps.foldl (fun m p => objInsert m p.1 p.2) []

/-! ### Launch-data verifier (src/lib/verifyTelegram.js) -/

/-- The check-string lines exactly as the source builds them: iterate
the object's keys in sorted order, skip `hash`, and push
`key + "=" + data[key]`. -/
def checkArr (data : List (JSString × JSString)) : List JSString :=
  (List.insertionSort (· ≤ ·) (data.map Prod.fst)).filterMap (fun key =>
    if key = js "hash" then none
    else some (key ++ js "=" ++ (lookupStr data key).getD []))

/-- `checkArr.join("\n")`. -/
def checkStringOf (data : List (JSString × JSString)) : JSString :=
  List.intercalate (js "\n") (checkArr data)

/-- Lowercase hexadecimal digit. -/
def hexDigitChar (n : Nat) : Char :=
  if n < 10 then Char.ofNat ('0'.toNat + n) else Char.ofNat ('a'.toNat + (n - 10))

/-- `bytes[i].toString(16).padStart(2, "0")` for one byte. -/
def byteToHex (b : Nat) : JSString := [hexDigitChar ((b / 16) % 16), hexDigitChar (b % 16)]

/-- `toHex`: lowercase hexadecimal rendering of a byte sequence. -/
def toHex (bs : List Nat) : JSString := bs.flatMap byteToHex

/-- `verifyTelegramInitData(initDataRaw, botToken)` from
src/lib/verifyTelegram.js. `hmacSHA256 key msg` stands for the Web
Crypto HMAC-SHA-256 primitive, which is external to the repository. -/
def verifyTelegramInitData (hmacSHA256 : List Nat → List Nat → List Nat)
    (initDataRaw botToken : JSString) : Bool :=
  if initDataRaw = [] || botToken = [] then false
  else
    let data := buildData (parseParams initDataRaw)
    match lookupStr data (js "hash") with
    | none => false
    | some receivedHash =>
      if receivedHash = [] then false
      else
        let checkString := checkStringOf data
        let step1 := hmacSHA256 (utf8Encode (js "WebAppData")) (utf8Encode botToken)
        let step2 := hmacSHA256 step1 (utf8Encode checkString)
        decide (toHex step2 = receivedHash)

/-- The canonical check-string in the specification's words: every
non-hash field as a `key=value` line, field names sorted
lexicographically, lines joined by single newlines with no trailing
newline. -/
def canonicalCheckString (data : List (JSString × JSString)) : JSString :=
  List.intercalate (js "\n")
    ((List.insertionSort (· ≤ ·)
        ((data.map Prod.fst).filter (fun k => decide (k ≠ js "hash")))).map
      (fun key => key ++ js "=" ++ (lookupStr data key).getD []))

/-! ### JSON values and `JSON.parse`

`JSON.parse` is modelled by a strict recursive-descent parser over the
JSON grammar. Two modelling notes: numbers keep their source lexeme
(the ECMAScript double-to-string rendering of `String(n)` is floating
point and is represented by the lexeme), and a lone UTF-16 surrogate
written with a `\u` escape becomes U+FFFD because Lean characters are
Unicode scalar values. -/

inductive Json where
  | null
  | bool (b : Bool)
  | num (lexeme : JSString)
  | str (s : JSString)
  | arr (elems : List Json)
  | obj (fields : List (JSString × Json))
  deriving Repr

/-- JSON whitespace. -/
def jsonWs (c : Char) : Bool := c = ' ' || c = '\t' || c = '\n' || c = '\r'

/-- Drop leading JSON whitespace. -/
def skipWs (s : JSString) : JSString := s.dropWhile jsonWs

/-- Four hexadecimal digits of a `\u` escape. -/
def parseHex4 : JSString → Option (Nat × JSString)
  | c1 :: c2 :: c3 :: c4 :: rest =>
    match hexDigitVal c1, hexDigitVal c2, hexDigitVal c3, hexDigitVal c4 with
    | some a, some b, some c, some d => some (4096 * a + 256 * b + 16 * c + d, rest)
    | _, _, _, _ => none
  | _ => none

/-- Single-character escapes of JSON strings. -/
def jsonEscChar (c : Char) : Option Char :=
  if c = '"' then some '"'
  else if c = '\\' then some '\\'
  else if c = '/' then some '/'
  else if c = 'b' then some (Char.ofNat 8)
  else if c = 'f' then some (Char.ofNat 12)
  else if c = 'n' then some '\n'
  else if c = 'r' then some '\r'
  else if c = 't' then some '\t'
  else none

/-- Body of a JSON string after the opening quote: returns the decoded
text and the remainder after the closing quote. Raw control characters
are rejected; paired `\u` surrogates combine; lone surrogates become
U+FFFD. -/
def parseJsonStringBody : Nat → JSString → Option (JSString × JSString)
  | 0, _ => none
  | _, [] => none
  | fuel + 1, c :: rest =>
    if c = '"' then some ([], rest)
    else if c = '\\' then
      match rest with
      | [] => none
      | e :: rest2 =>
        if e = 'u' then
          match parseHex4 rest2 with
          | none => none
          | some (n, rest3) =>
            if 0xD800 ≤ n && n ≤ 0xDBFF then
              match rest3 with
              | '\\' :: 'u' :: rest4 =>
                match parseHex4 rest4 with
                | some (m, rest5) =>
                  if 0xDC00 ≤ m && m ≤ 0xDFFF then
                    (parseJsonStringBody fuel rest5).map (fun r =>
                      (charOfScalar (0x10000 + (n - 0xD800) * 1024 + (m - 0xDC00)) :: r.1, r.2))
                  else
                    (parseJsonStringBody fuel rest3).map (fun r => (replacementChar :: r.1, r.2))
                | none =>
                  (parseJsonStringBody fuel rest3).map (fun r => (replacementChar :: r.1, r.2))
              | _ =>
                (parseJsonStringBody fuel rest3).map (fun r => (replacementChar :: r.1, r.2))
            else if 0xDC00 ≤ n && n ≤ 0xDFFF then
              (parseJsonStringBody fuel rest3).map (fun r => (replacementChar :: r.1, r.2))
            else
              (parseJsonStringBody fuel rest3).map (fun r => (charOfScalar n :: r.1, r.2))
        else
          match jsonEscChar e with
          | some ch => (parseJsonStringBody fuel rest2).map (fun r => (ch :: r.1, r.2))
          | none => none
    else if c.toNat < 0x20 then none
    else (parseJsonStringBody fuel rest).map (fun r => (c :: r.1, r.2))

/-- Fraction part of a JSON number (empty when absent, failure on a
bare dot). -/
def parseJsonFrac : JSString → Option (JSString × JSString)
  | '.' :: r =>
    let ds := r.takeWhile Char.isDigit
    if ds = [] then none else some ('.' :: ds, r.dropWhile Char.isDigit)
  | r => some ([], r)

/-- Exponent part of a JSON number (empty when absent). -/
def parseJsonExp : JSString → Option (JSString × JSString)
  | [] => some ([], [])
  | c :: r =>
    if c = 'e' || c = 'E' then
      let sr : JSString × JSString :=
        match r with
        | s :: r2 => if s = '+' || s = '-' then ([s], r2) else ([], r)
        | [] => ([], [])
      let ds := sr.2.takeWhile Char.isDigit
      if ds = [] then none
      else some (c :: (sr.1 ++ ds), sr.2.dropWhile Char.isDigit)
    else some ([], c :: r)

/-- A JSON number, returned as its lexeme. -/
def parseJsonNumber (s : JSString) : Option (JSString × JSString) :=
  let ns : JSString × JSString := match s with | '-' :: r => (['-'], r) | r => ([], r)
  match ns.2 with
  | [] => none
  | c :: _ =>
    if ¬ c.isDigit then none
    else
      let intPart := ns.2.takeWhile Char.isDigit
      let rest1 := ns.2.dropWhile Char.isDigit
      if c = '0' && intPart.length ≠ 1 then none
      else
        match parseJsonFrac rest1 with
        | none => none
        | some (frac, rest2) =>
          match parseJsonExp rest2 with
          | none => none
          | some (ex, rest3) => some (ns.1 ++ intPart ++ frac ++ ex, rest3)

mutual

/-- One JSON value, preceded by optional whitespace. -/
def parseJsonValue : Nat → JSString → Option (Json × JSString)
  | 0, _ => none
  | fuel + 1, s =>
    match skipWs s with
    | [] => none
    | c :: rest =>
      if c = 'n' then
        if (js "ull").isPrefixOf rest then some (.null, rest.drop 3) else none
      else if c = 't' then
        if (js "rue").isPrefixOf rest then some (.bool true, rest.drop 3) else none
      else if c = 'f' then
        if (js "alse").isPrefixOf rest then some (.bool false, rest.drop 4) else none
      else if c = '"' then
        (parseJsonStringBody fuel rest).map (fun r => (.str r.1, r.2))
      else if c = '[' then
        match skipWs rest with
        | ']' :: r => some (.arr [], r)
        | _ => (parseJsonElems fuel rest).map (fun r => (.arr r.1, r.2))
      else if c = '\x7b' then
        match skipWs rest with
        | '\x7d' :: r => some (.obj [], r)
        | _ => (parseJsonMembers fuel rest).map (fun r => (.obj r.1, r.2))
      else
        (parseJsonNumber (c :: rest)).map (fun r => (.num r.1, r.2))

/-- Elements of a non-empty JSON array, up to and including `]`. -/
def parseJsonElems : Nat → JSString → Option (List Json × JSString)
  | 0, _ => none
  | fuel + 1, s =>
    match parseJsonValue fuel s with
    | none => none
    | some (v, rest) =>
      match skipWs rest with
      | ',' :: r =>
        (parseJsonElems fuel r).map (fun r2 => (v :: r2.1, r2.2))
      | ']' :: r => some ([v], r)
      | _ => none

/-- Members of a non-empty JSON object, up to and including the
closing brace. -/
def parseJsonMembers : Nat → JSString → Option (List (JSString × Json) × JSString)
  | 0, _ => none
  | fuel + 1, s =>
    match skipWs s with
    | '"' :: rest =>
      match parseJsonStringBody fuel rest with
      | none => none
      | some (k, rest1) =>
        match skipWs rest1 with
        | ':' :: r =>
          match parseJsonValue fuel r with
          | none => none
          | some (v, rest3) =>
            match skipWs rest3 with
            | ',' :: r2 =>
              (parseJsonMembers fuel r2).map (fun r3 => ((k, v) :: r3.1, r3.2))
            | '\x7d' :: r2 => some ([(k, v)], r2)
            | _ => none
        | _ => none
    | _ => none

end

/-- `JSON.parse`: parse one value and demand that only whitespace
remains. `none` is the thrown `SyntaxError`. -/
def jsonParse (s : JSString) : Option Json :=
  match parseJsonValue (s.length + 1) s with
  | some (v, rest) => if skipWs rest = [] then some v else none
  | none => none

/-! ### JavaScript value semantics on parsed JSON -/

/-- Whether the mantissa of a number lexeme is zero (its sign and
exponent cannot make a zero mantissa nonzero). -/
def jsonNumIsZero (lex : JSString) : Bool :=
  ((lex.takeWhile (fun c => c ≠ 'e' && c ≠ 'E')).filter Char.isDigit).all (fun c => c = '0')

/-- JavaScript truthiness of a parsed JSON value. -/
def jsTruthy : Json → Bool
  | .null => false
  | .bool b => b
  | .num lex => ¬ jsonNumIsZero lex
  | .str s => s ≠ []
  | .arr _ => true
  | .obj _ => true

mutual

/-- `String(v)` for a parsed JSON value: objects render as
`[object Object]`, arrays join their elements with commas
(`null` joining as the empty string). -/
def jsStringOfJson : Json → JSString
  | .null => js "null"
  | .bool true => js "true"
  | .bool false => js "false"
  | .num lex => lex
  | .str s => s
  | .arr xs => List.intercalate (js ",") (jsStringsOfElems xs)
  | .obj _ => js "[object Object]"

/-- `Array.prototype.join` element rendering: `null` contributes an
empty string. -/
def jsStringsOfElems : List Json → List JSString
  | [] => []
  | .null :: xs => [] :: jsStringsOfElems xs
  | x :: xs => jsStringOfJson x :: jsStringsOfElems xs

end

/-- Property lookup on an object built by `JSON.parse`: a later
duplicate key overwrites an earlier one, so the last occurrence wins. -/
def lookupJson : List (JSString × Json) → JSString → Option Json
  | [], _ => none
  | (k, v) :: rest, key =>
    match lookupJson rest key with
    | some r => some r
    | none => if k = key then some v else none

/-- `v.k`: an own-property read; non-objects have no such
properties (reading from `null` throws, which call sites handle). -/
def jsonGetField : Json → JSString → Option Json
  | .obj fields, key => lookupJson fields key
  | _, _ => none

/-! ### Identity extractor (src/lib/verifyTelegram.js, extractUserId) -/

/-- `extractUserId(initDataRaw)` from src/lib/verifyTelegram.js: read
the first `user` parameter, `JSON.parse` it, and return
`String(user.id)`; the surrounding `try`/`catch` maps every thrown
error (invalid JSON, property read on `null`) to `null`. A parsed
non-null value without an `id` yields `String(undefined)`, the string
`"undefined"`. -/
def extractUserId (initDataRaw : JSString) : Option JSString :=
  match lookupStr (parseParams initDataRaw) (js "user") with
  | none => none
  | some userJson =>
    if userJson = [] then none
    else
      match jsonParse userJson with
      | none => none
      | some .null => none
      | some user =>
        some (match jsonGetField user (js "id") with
              | none => js "undefined"
              | some v => jsStringOfJson v)

/-! ### SSE frame decoding (ssePost in src/frontend/pages/index.tsx) -/

/-- Index of the first occurrence of two consecutive newlines. -/
def findNLNL : JSString → Option Nat
  | '\n' :: '\n' :: _ => some 0
  | _ :: rest => (findNLNL rest).map (· + 1)
  | [] => none

/-- `chunk.indexOf('\n\n', start)`. -/
def indexOfNLNLFrom (s : JSString) (start : Nat) : Option Nat :=
  (findNLNL (s.drop start)).map (· + start)

/-- `buffer.lastIndexOf('\n\n')`: the last occurrence, overlapping
occurrences included. -/
def lastNLNL : JSString → Option Nat
  | c1 :: c2 :: rest =>
    match lastNLNL (c2 :: rest) with
    | some i => some (i + 1)
    | none => if c1 = '\n' ∧ c2 = '\n' then some 0 else none
  | _ => none

/-- The scanning loop of `parseSSELines`: collect the slice before
each `\n\n` found from the current start position onward. -/
def parseSSELinesFrom : Nat → JSString → Nat → List JSString
  | 0, _, _ => []
  | fuel + 1, chunk, start =>
    match indexOfNLNLFrom chunk start with
    | none => []
    | some idx => (chunk.take idx).drop start :: parseSSELinesFrom fuel chunk (idx + 2)

/-- `parseSSELines(chunk)` from src/frontend/pages/index.tsx. -/
def parseSSELines (chunk : JSString) : List JSString :=
  parseSSELinesFrom (chunk.length + 1) chunk 0

/-- One read-loop iteration of ssePost at the text level: append the
decoded chunk to the buffer, emit `parseSSELines(buffer)`, and keep
only what follows `buffer.lastIndexOf('\n\n')`. -/
def ssePostStep (buffer chunkText : JSString) : List JSString × JSString :=
  let buf := buffer ++ chunkText
  let lines := parseSSELines buf
  let buf' :=
    match lastNLNL buf with
    | some i => buf.drop (i + 2)
    | none => buf
  (lines, buf')

/-- The frames ssePost's read loop emits for a whole chunked byte
stream: a streaming `TextDecoder` feeds the buffer, and when the
transport closes the pending bytes and the unterminated buffer tail
are discarded. -/
def ssePostFrames (chunks : List (List Nat)) : List JSString :=
  (chunks.foldl
    (fun (st : (List Nat × JSString) × List JSString) chunk =>
      let dec := textDecodeChunk st.1.1 chunk
      let step := ssePostStep st.1.2 dec.2
      ((dec.1, step.2), st.2 ++ step.1))
    (([], []), [])).2

/-- Payload selection in ssePost: the whole frame text must begin
with the six characters `data: ` (marker and one space), which are
then removed. -/
def ssePostFramePayload (line : JSString) : Option JSString :=
  if (js "data: ").isPrefixOf line then some (line.drop 6) else none

/-- What ssePost does with one emitted frame. -/
inductive SseAction where
  | stop
  | yieldDelta (d : JSString)
  | skip
  deriving Repr, DecidableEq

/-- The per-frame body of ssePost's loop: `[DONE]` returns, a parsed
object with a truthy `delta` yields it, everything else (parse errors
included) is ignored. -/
def ssePostFrameAction (line : JSString) : SseAction :=
  match ssePostFramePayload line with
  | none => .skip
  | some payload =>
    if payload = js "[DONE]" then .stop
    else
      match jsonParse payload with
      | some obj =>
        match jsonGetField obj (js "delta") with
        | some d => if jsTruthy d then .yieldDelta (jsStringOfJson d) else .skip
        | none => .skip
      | none => .skip

/-- The deltas the ssePost generator yields for a frame sequence,
stopping at the first `[DONE]`. -/
def ssePostRun : List JSString → List JSString
  | [] => []
  | f :: fs =>
    match ssePostFrameAction f with
    | .stop => []
    | .yieldDelta d => d :: ssePostRun fs
    | .skip => ssePostRun fs

/-! ### Session transcript -/

/-- Message roles. -/
inductive Role where
  | system
  | user
  | assistant
  deriving Repr, DecidableEq

/-- A transcript entry. -/
structure ChatMsg where
  role : Role
  content : JSString
  deriving Repr, DecidableEq

/-- The setMessages updater in handleSend of
src/frontend/pages/index.tsx: append the delta to the content of the
last entry when it is an assistant message, otherwise change
nothing. -/
def handleSendApplyDelta (delta : JSString) (prev : List ChatMsg) : List ChatMsg :=
  match prev.getLast? with
  | none => prev
  | some last =>
    if last.role = .assistant then
      prev.set (prev.length - 1) { role := last.role, content := last.content ++ delta }
    else prev

/-! ### The send loop of src/unnamed/part_001 -/

/-- ECMAScript whitespace for `String.prototype.trim` (the common
code points). -/
def jsWhitespace (c : Char) : Bool :=
  c = ' ' || c = '\t' || c = '\n' || c = '\r' ||
  c = Char.ofNat 11 || c = Char.ofNat 12 || c = Char.ofNat 0xA0 || c = Char.ofNat 0xFEFF

/-- `String.prototype.trim`. -/
def jsTrim (s : JSString) : JSString :=
  ((s.dropWhile jsWhitespace).reverse.dropWhile jsWhitespace).reverse

/-- `line.startsWith('data:') ? line.slice(5).trim() : (skipped)` in
send of src/unnamed/part_001: the five marker characters are removed
and the remainder is trimmed of all surrounding whitespace. -/
def sendLinePayload (line : JSString) : Option JSString :=
  if (js "data:").isPrefixOf line then some (jsTrim (line.drop 5)) else none

/-- Remove exactly one leading space, if present. -/
def stripOneSpace : JSString → JSString
  | ' ' :: r => r
  | r => r

/-- The payload extraction in the specification's words: strip the
marker and exactly one following space, if present. -/
def linePayloadSpec (line : JSString) : Option JSString :=
  if (js "data:").isPrefixOf line then some (stripOneSpace (line.drop 5)) else none

/-- The delta branch of send: a truthy `delta` is appended to the
accumulated assistant text. -/
def sendApplyDelta (json : Json) (assistant : JSString) : JSString :=
  match jsonGetField json (js "delta") with
  | some d => if jsTruthy d then assistant ++ jsStringOfJson d else assistant
  | none => assistant

/-- One payload applied by send of src/unnamed/part_001: the Boolean
is whether the loop keeps consuming (`false` only for the `[DONE]`
sentinel, which returns from send). A truthy `error` field appends
`"\n[error] " + json.error` and the loop continues; unparseable
payloads are ignored. -/
def sendApply (payload assistant : JSString) : JSString × Bool :=
  if payload = js "[DONE]" then (assistant, false)
  else
    match jsonParse payload with
    | none => (assistant, true)
    | some json =>
      match jsonGetField json (js "error") with
      | some e =>
        if jsTruthy e then (assistant ++ js "\n[error] " ++ jsStringOfJson e, true)
        else (sendApplyDelta json assistant, true)
      | none => (sendApplyDelta json assistant, true)

/-- Fold payloads through sendApply until it stops; returns the final
accumulated text and whether the sentinel stopped consumption before
the list was exhausted. -/
def sendRunPayloads : List JSString → JSString → JSString × Bool
  | [], acc => (acc, false)
  | p :: ps, acc =>
    let r := sendApply p acc
    if r.2 then sendRunPayloads ps r.1 else (r.1, true)

/-- The setMessages updater inside send of src/unnamed/part_001: the
last entry is replaced by the accumulated assistant text when its role
is assistant, otherwise nothing changes. -/
def sendSetMessages (assistant : JSString) (curr : List ChatMsg) : List ChatMsg :=
  match curr.getLast? with
  | none => curr
  | some last =>
    if last.role = .assistant then
      curr.set (curr.length - 1) { role := .assistant, content := assistant }
    else curr

/-! ### The handleSend updater of src/unnamed/part_002 -/

/-- `assistantIndex = history.length` in handleSend of
src/unnamed/part_002: history is the previous transcript plus the
topic-context and user messages, capped by `slice(-20)` at 20
entries. -/
def assistantIndexOf (priorLen : Nat) : Nat := min (priorLen + 2) 20

/-- The setMessages updater of handleSend in src/unnamed/part_002: it
targets the fixed index `assistantIndex`. An existing entry there has
the delta appended to its content (keeping its role); a missing entry
is created as a fresh assistant message holding the delta (an index
beyond the length cannot arise from this caller). -/
def handleSendApplyDeltaAt (idx : Nat) (delta : JSString) (prev : List ChatMsg) : List ChatMsg :=
  match prev[idx]? with
  | some m => prev.set idx { role := m.role, content := m.content ++ delta }
  | none => prev ++ [{ role := .assistant, content := delta }]

/-! ### The tip endpoint (src/pages/api/tip.js) -/

/-- The JSON request body's relevant members; `none` is an absent
member. -/
structure TipRequestBody where
  level : Option Json
  errors : Option Json
  initData : Option Json

/-- A JavaScript Promise: `verifyTelegramInitData` is `async`, so
calling it without `await` produces a Promise object, not the
resolved Boolean. -/
structure JsPromise (α : Type) where
  val : α

/-- Every object, a Promise included, is truthy. -/
def JsPromise.truthy {α : Type} (_ : JsPromise α) : Bool := true

/-- The allowed levels of src/pages/api/tip.js. -/
def allowedLevels : List JSString := [js "beginner", js "intermediate", js "advanced"]

/-- `String.prototype.toLowerCase` (ASCII case mapping). -/
def jsToLower (s : JSString) : JSString := s.map Char.toLower

/-- `const normLevel = String(level || "beginner").toLowerCase()`
from src/pages/api/tip.js (`level || "beginner"` falls back on any
falsy level, an absent member included). -/
def normLevelOf (level : Option Json) : JSString :=
  jsToLower (jsStringOfJson
    (match level with
     | some v => if jsTruthy v then v else .str (js "beginner")
     | none => .str (js "beginner")))

/-- `allowed.has(normLevel) ? normLevel : "beginner"` from
src/pages/api/tip.js. -/
def finalLevelOf (level : Option Json) : JSString :=
  if normLevelOf level ∈ allowedLevels then normLevelOf level else js "beginner"

/-- `Array.isArray(errors) ? errors.slice(0, 20).map(s => String(s).slice(0, 200)) : []`. -/
def errsOf (errors : Option Json) : List JSString :=
  match errors with
  | some (.arr xs) => (xs.take 20).map (fun s => (jsStringOfJson s).take 200)
  | _ => []

/-- What the handler responds with and what it hands to tip
generation. -/
structure TipResponse where
  status : Nat
  ok : Bool
  tipInvoked : Bool
  tipLevel : Option JSString
  tipErrors : Option (List JSString)
  tipUserId : Option JSString
  deriving Repr, DecidableEq

/-- The default export handler of src/pages/api/tip.js. generateTip
itself (src/lib/llm.js) calls a remote model; the response records the
sanitized arguments handed to it. The source does not `await` the
verification call, so the guard tests the truthiness of a Promise
object. -/
def handler (hmacSHA256 : List Nat → List Nat → List Nat)
    (method : JSString) (body : Option TipRequestBody) (botToken : JSString) : TipResponse :=
  if method ≠ js "POST" then
    { status := 405, ok := false, tipInvoked := false,
      tipLevel := none, tipErrors := none, tipUserId := none }
  else
    let b := body.getD { level := none, errors := none, initData := none }
    if ¬ (b.initData.map jsTruthy).getD false then
      { status := 400, ok := false, tipInvoked := false,
        tipLevel := none, tipErrors := none, tipUserId := none }
    else
      let initStr := jsStringOfJson (b.initData.getD .null)
      let ok : JsPromise Bool := ⟨verifyTelegramInitData hmacSHA256 initStr botToken⟩
      if ¬ ok.truthy then
        { status := 401, ok := false, tipInvoked := false,
          tipLevel := none, tipErrors := none, tipUserId := none }
      else
        let userId :=
          match extractUserId initStr with
          | some s => if s = [] then js "unknown" else s
          | none => js "unknown"
        { status := 200, ok := true, tipInvoked := true,
          tipLevel := some (finalLevelOf b.level), tipErrors := some (errsOf b.errors),
          tipUserId := some userId }

/-- A stand-in for HMAC-SHA-256 with the correct 32-byte digest
length, used to instantiate theorems at concrete inputs. -/
def constHmac : List Nat → List Nat → List Nat := fun _ _ => List.replicate 32 0

/-! ## Theorems -/

theorem constHmac_length (k m : List Nat) : (constHmac k m).length = 32 := by
  simp [constHmac]

/-- C1: the claim fails on the code because the handler does not
`await` the async verification call: its guard tests the truthiness of
a Promise object, which is always true., A POST whose initData `a=1`
is rejected by verification (for any HMAC) still reaches tip
generation with a 200 response, and no execution of the handler can
answer 401. -/
theorem tip_handler_gate_bypassed :
    verifyTelegramInitData constHmac (js "a=1") (js "T") = false ∧
    handler constHmac (js "POST") (some ⟨none, none, some (Json.str (js "a=1"))⟩) (js "T") =
      { status := 200, ok := true, tipInvoked := true,
        tipLevel := some (js "beginner"), tipErrors := some [],
        tipUserId := some (js "unknown") } ∧
    ∀ (hmacSHA256 : List Nat → List Nat → List Nat) (method : JSString)
      (body : Option TipRequestBody) (botToken : JSString),
      (handler hmacSHA256 method body botToken).status ≠ 401 := by
  refine ⟨by decide, by decide, ?_⟩
  intro hmacSHA256 method body botToken
  simp only [handler, JsPromise.truthy]
  split_ifs <;> simp_all

/-- C5: the claim fails on the code. The frame scan of
`parseSSELines` never matches overlapping delimiters, but the buffer
is cut at `buffer.lastIndexOf('\n\n')`, which does: on a buffer
holding three consecutive newlines, a newline that the scan left for
the next frame is silently dropped. Splitting the byte stream
`"\n\n\nrest\n\n"` after its third newline therefore changes the
emitted frame sequence from `["", "\nrest"]` to `["", "rest"]`. -/
theorem ssePost_frames_chunking_counterexample :
    ssePostFrames [utf8Encode (js "\n\n\nrest\n\n")] = [[], js "\nrest"] ∧
    ssePostFrames [utf8Encode (js "\n\n\n"), utf8Encode (js "rest\n\n")] = [[], js "rest"] ∧
    js "\nrest" ≠ js "rest" := by
  refine ⟨by decide, by decide, by decide⟩

/-- C7: from an empty assistant message, the payloads
`{"delta":"Hel"}`, `{"delta":"lo"}` and `[DONE]` append each delta
verbatim in order with final content `"Hello"`; the sentinel ends
consumption without modifying the sink. This holds in the send loop of
src/unnamed/part_001 (whose run reports the stop) and in the ssePost
generator consumed by handleSend of src/frontend/pages/index.tsx. -/
theorem delta_accumulation_hello :
    sendRunPayloads
        [js "\x7b\"delta\":\"Hel\"\x7d", js "\x7b\"delta\":\"lo\"\x7d", js "[DONE]"] [] =
      (js "Hello", true) ∧
    sendApply (js "[DONE]") (js "Hello") = (js "Hello", false) ∧
    ssePostRun
        [js "data: \x7b\"delta\":\"Hel\"\x7d", js "data: \x7b\"delta\":\"lo\"\x7d",
         js "data: [DONE]"] = [js "Hel", js "lo"] ∧
    (ssePostRun
        [js "data: \x7b\"delta\":\"Hel\"\x7d", js "data: \x7b\"delta\":\"lo\"\x7d",
         js "data: [DONE]"]).foldl (fun msgs d => handleSendApplyDelta d msgs)
        [⟨.assistant, []⟩] = [⟨.assistant, js "Hello"⟩] := by
  refine ⟨by decide, by decide, by decide, by decide⟩

/-- C9: the claim fails on the code of src/unnamed/part_002: its
updater targets `assistantIndex = history.length`, capped at 20 by
`slice(-20)` and computed from a stale transcript, instead of the
trailing sink. With 25 prior messages the transcript grows to 27
entries with its sink at index 26, yet a delta is appended to the
historical entry at index 20 while the sink stays empty. -/
theorem handleSend_mutates_non_sink_entry :
    assistantIndexOf (List.replicate 25 (ChatMsg.mk .user (js "m"))).length = 20 ∧
    (List.replicate 25 (ChatMsg.mk .user (js "m")) ++
        [ChatMsg.mk .user (js "q"), ChatMsg.mk .assistant []]).length = 27 ∧
    (List.replicate 25 (ChatMsg.mk .user (js "m")) ++
        [ChatMsg.mk .user (js "q"), ChatMsg.mk .assistant []])[20]? =
      some (ChatMsg.mk .user (js "m")) ∧
    (handleSendApplyDeltaAt 20 (js "x")
        (List.replicate 25 (ChatMsg.mk .user (js "m")) ++
          [ChatMsg.mk .user (js "q"), ChatMsg.mk .assistant []]))[20]? =
      some (ChatMsg.mk .user (js "mx")) ∧
    (handleSendApplyDeltaAt 20 (js "x")
        (List.replicate 25 (ChatMsg.mk .user (js "m")) ++
          [ChatMsg.mk .user (js "q"), ChatMsg.mk .assistant []]))[26]? =
      some (ChatMsg.mk .assistant []) := by
  refine ⟨by decide, by decide, by decide, by decide, by decide⟩

theorem jsTrim_cons_space (r : JSString) : jsTrim (' ' :: r) = jsTrim r := by
  simp [jsTrim, List.dropWhile_cons, jsWhitespace]

theorem jsTrim_stripOneSpace (s : JSString) : jsTrim (stripOneSpace s) = jsTrim s := by
  unfold stripOneSpace
  split
  · exact (jsTrim_cons_space _).symm
  · rfl

/-- C6 is false as stated: send of src/unnamed/part_001 trims every
surrounding space from the payload, not exactly one (`"data:  x"`
forwards `"x"` where the claim demands `" x"`), and ssePost of
src/frontend/pages/index.tsx ignores a line that begins with the
marker but lacks the following space (`"data:x"`), though the claim
says every marker-prefixed line is forwarded. -/
theorem marker_stripping_counterexample :
    sendLinePayload (js "data:  x") = some (js "x") ∧
    linePayloadSpec (js "data:  x") = some (js " x") ∧
    js "x" ≠ js " x" ∧
    ssePostFramePayload (js "data:x") = none ∧
    linePayloadSpec (js "data:x") = some (js "x") := by
  refine ⟨by decide, by decide, by decide, by decide, by decide⟩

/-- C6 amended: in the send loop of src/unnamed/part_001 a line
beginning with `data:` is forwarded as the claim's marker-stripped
payload additionally trimmed of all surrounding whitespace, other
lines are ignored, and all lines of a chunk are treated alike; in the
ssePost consumer of src/frontend/pages/index.tsx a frame is forwarded
exactly when its whole text begins with `data: ` (marker plus one
space), in which case the forwarded payload coincides with the
claim's. -/
theorem marker_stripping_amended :
    (∀ line : JSString, sendLinePayload line = (linePayloadSpec line).map jsTrim) ∧
    (∀ line : JSString,
      ssePostFramePayload line =
        if (js "data: ").isPrefixOf line then linePayloadSpec line else none) := by
  constructor
  · intro line
    unfold sendLinePayload linePayloadSpec
    by_cases h : (js "data:").isPrefixOf line
    · simp only [h, if_pos, Option.map_some']
      exact congrArg some (jsTrim_stripOneSpace (line.drop 5)).symm
    · simp [h]
  · intro line
    unfold ssePostFramePayload
    by_cases h6 : (js "data: ").isPrefixOf line
    · rw [if_pos h6, if_pos h6]
      obtain ⟨t, rfl⟩ := List.isPrefixOf_iff_prefix.mp h6
      simp [linePayloadSpec, stripOneSpace, js, List.isPrefixOf]
    · rw [if_neg h6, if_neg h6]

theorem jsonParse_done_none : jsonParse (js "[DONE]") = none := by rfl

theorem jsonParse_nil_none : jsonParse [] = none := by rfl

/-- C4 is false as stated: the payload below parses as a JSON object
containing an `error` field, yet send of src/unnamed/part_001 neither
appends an annotation (the branch tests truthiness, and the empty
message is falsy) nor stops consuming — it returns continue = true. -/
theorem error_frame_counterexample :
    sendApply (js "\x7b\"error\":\"\"\x7d") (js "Hel") = (js "Hel", true) ∧
    jsonParse (js "\x7b\"error\":\"\"\x7d") = some (.obj [(js "error", .str [])]) := by
  exact ⟨by decide, by rfl⟩

/-- C4 amended: in send of src/unnamed/part_001 a payload whose
parsed object has a truthy `error` field appends the annotation
`"\n[error] " + error` to the accumulated content and the loop keeps
consuming (continue = true), so after `{"error":"rate_limited"}` and
stream close the message holds its pre-error content plus the visible
annotation; in the ssePost consumer of src/frontend/pages/index.tsx
an error payload (any parsed object without a `delta` field) is
skipped entirely — no annotation and no stop. -/
theorem error_frame_recorded_but_not_terminal :
    (∀ (pre payload : JSString) (j e : Json),
      jsonParse payload = some j →
      jsonGetField j (js "error") = some e →
      jsTruthy e = true →
      sendApply payload pre = (pre ++ js "\n[error] " ++ jsStringOfJson e, true)) ∧
    (∀ (payload : JSString) (j : Json),
      jsonParse payload = some j →
      jsonGetField j (js "delta") = none →
      ssePostFrameAction (js "data: " ++ payload) = .skip) := by
  constructor
  · intro pre payload j e hparse herr htruthy
    have hdone : payload ≠ js "[DONE]" := by
      intro h
      rw [h, jsonParse_done_none] at hparse
      exact Option.noConfusion hparse
    unfold sendApply
    rw [if_neg hdone, hparse]
    simp [herr, htruthy]
  · intro payload j hparse hdelta
    have hdone : payload ≠ js "[DONE]" := by
      intro h
      rw [h, jsonParse_done_none] at hparse
      exact Option.noConfusion hparse
    have hdrop : (js "data: " ++ payload).drop 6 = payload := rfl
    have hpre : (js "data: ").isPrefixOf (js "data: " ++ payload) = true := by
      simp [js, List.isPrefixOf]
    unfold ssePostFrameAction ssePostFramePayload
    rw [hpre, if_pos rfl, hdrop]
    simp [hdone, hparse, hdelta]

/-- Witness for the amended C4 at the claim's own scenario. -/
theorem error_frame_recorded_witness :
    sendApply (js "\x7b\"error\":\"rate_limited\"\x7d") (js "Hel") =
      (js "Hel" ++ js "\n[error] " ++ js "rate_limited", true) ∧
    ssePostFrameAction (js "data: " ++ js "\x7b\"error\":\"rate_limited\"\x7d") = .skip :=
  ⟨error_frame_recorded_but_not_terminal.1 (js "Hel") (js "\x7b\"error\":\"rate_limited\"\x7d")
      (Json.obj [(js "error", Json.str (js "rate_limited"))]) (Json.str (js "rate_limited"))
      rfl rfl rfl,
   error_frame_recorded_but_not_terminal.2 (js "\x7b\"error\":\"rate_limited\"\x7d")
      (Json.obj [(js "error", Json.str (js "rate_limited"))]) rfl rfl⟩

/-- C3 is false as stated: `user` holding the empty JSON object lacks
an `id` field, yet `extractUserId` does not return null — reading
`.id` yields `undefined`, and `String(undefined)` is the string
`"undefined"`. -/
theorem extractUserId_missing_id_counterexample :
    extractUserId (js "user=\x7b\x7d") ≠ none ∧
    extractUserId (js "user=\x7b\x7d") = some (js "undefined") := by
  exact ⟨by decide, by decide⟩

/-- C3 amended: `extractUserId` returns null for an absent (or empty)
`user` field, for a `user` value that is not valid JSON, and for the
JSON value `null` (whose property read throws, caught by the
handler); for any other parsed value it returns the String coercion
of the `id` member — the string `"undefined"` when `id` is absent.
It never throws (it is total), and it does not consult the secret, so
its result is independent of verification. -/
theorem extractUserId_characterization :
    (∀ raw : JSString,
      lookupStr (parseParams raw) (js "user") = none → extractUserId raw = none) ∧
    (∀ raw u : JSString,
      lookupStr (parseParams raw) (js "user") = some u → jsonParse u = none →
      extractUserId raw = none) ∧
    (∀ raw u : JSString,
      lookupStr (parseParams raw) (js "user") = some u → jsonParse u = some .null →
      extractUserId raw = none) ∧
    (∀ (raw u : JSString) (j : Json),
      lookupStr (parseParams raw) (js "user") = some u → jsonParse u = some j →
      j ≠ .null → jsonGetField j (js "id") = none →
      extractUserId raw = some (js "undefined")) ∧
    (∀ (raw u : JSString) (j v : Json),
      lookupStr (parseParams raw) (js "user") = some u → jsonParse u = some j →
      jsonGetField j (js "id") = some v →
      extractUserId raw = some (jsStringOfJson v)) := by
  refine ⟨?_, ?_, ?_, ?_, ?_⟩
  · intro raw h
    unfold extractUserId
    rw [h]
  · intro raw u h1 h2
    unfold extractUserId
    rw [h1]
    by_cases hu : u = []
    · simp [hu]
    · simp [hu, h2]
  · intro raw u h1 h2
    have hu : u ≠ [] := by
      intro h
      rw [h, jsonParse_nil_none] at h2
      exact Option.noConfusion h2
    unfold extractUserId
    rw [h1]
    simp [hu, h2]
  · intro raw u j h1 h2 hj hid
    have hu : u ≠ [] := by
      intro h
      rw [h, jsonParse_nil_none] at h2
      exact Option.noConfusion h2
    unfold extractUserId
    rw [h1]
    cases j <;> simp_all
  · intro raw u j v h1 h2 hid
    have hu : u ≠ [] := by
      intro h
      rw [h, jsonParse_nil_none] at h2
      exact Option.noConfusion h2
    have hj : j ≠ .null := by
      intro h
      rw [h] at hid
      exact Option.noConfusion hid
    unfold extractUserId
    rw [h1]
    cases j <;> simp_all

/-- Witness for the amended C3 at a user value with and without an
`id`. -/
theorem extractUserId_characterization_witness :
    extractUserId (js "user=\x7b\"id\":42\x7d") =
      some (jsStringOfJson (Json.num (js "42"))) ∧
    extractUserId (js "user=abc") = none :=
  ⟨extractUserId_characterization.2.2.2.2 (js "user=\x7b\"id\":42\x7d")
      (js "\x7b\"id\":42\x7d") (Json.obj [(js "id", Json.num (js "42"))])
      (Json.num (js "42")) rfl rfl rfl,
   extractUserId_characterization.2.1 (js "user=abc") (js "abc") rfl rfl⟩

/-! ### Association-list and sorting lemmas for the verifier -/

theorem lookupStr_eq_none_iff (l : List (JSString × JSString)) (k : JSString) :
    lookupStr l k = none ↔ k ∉ l.map Prod.fst := by
  induction l with
  | nil => simp [lookupStr]
  | cons p rest ih =>
    obtain ⟨pk, pv⟩ := p
    by_cases h : pk = k
    · subst h; simp [lookupStr]
    · simp only [lookupStr, if_neg h, List.map_cons, List.mem_cons, ih]
      constructor
      · intro hn hor
        rcases hor with heq | hmem
        · exact h heq.symm
        · exact hn hmem
      · intro hn hmem
        exact hn (Or.inr hmem)

theorem mem_of_lookupStr_eq_some {l : List (JSString × JSString)} {k v : JSString}
    (h : lookupStr l k = some v) : (k, v) ∈ l := by
  induction l with
  | nil => exact Option.noConfusion h
  | cons p rest ih =>
    obtain ⟨pk, pv⟩ := p
    by_cases hk : pk = k
    · subst hk
      have h' : pv = v := by simpa [lookupStr] using h
      subst h'
      exact List.mem_cons_self _ _
    · simp only [lookupStr, if_neg hk] at h
      exact List.mem_cons_of_mem _ (ih h)

theorem lookupStr_eq_some_of_mem {l : List (JSString × JSString)} {k v : JSString}
    (hnodup : (l.map Prod.fst).Nodup) (hmem : (k, v) ∈ l) : lookupStr l k = some v := by
  induction l with
  | nil => cases hmem
  | cons p rest ih =>
    obtain ⟨pk, pv⟩ := p
    simp only [List.map_cons, List.nodup_cons] at hnodup
    rcases List.mem_cons.mp hmem with heq | hmem'
    · cases heq
      simp [lookupStr]
    · have hk : pk ≠ k := by
        intro h
        subst h
        exact hnodup.1 (List.mem_map_of_mem Prod.fst hmem')
      simp only [lookupStr, if_neg hk]
      exact ih hnodup.2 hmem'

theorem lookupStr_perm {l₁ l₂ : List (JSString × JSString)} (hperm : l₁.Perm l₂)
    (hnodup : (l₁.map Prod.fst).Nodup) (k : JSString) :
    lookupStr l₁ k = lookupStr l₂ k := by
  have hnodup₂ : (l₂.map Prod.fst).Nodup := ((hperm.map Prod.fst).nodup_iff).mp hnodup
  cases h1 : lookupStr l₁ k with
  | some v =>
    exact (lookupStr_eq_some_of_mem hnodup₂
      (hperm.mem_iff.mp (mem_of_lookupStr_eq_some h1))).symm
  | none =>
    have hk : k ∉ l₁.map Prod.fst := (lookupStr_eq_none_iff _ _).mp h1
    have hk2 : k ∉ l₂.map Prod.fst := fun hmem =>
      hk (((hperm.map Prod.fst).mem_iff).mpr hmem)
    exact ((lookupStr_eq_none_iff _ _).mpr hk2).symm

theorem buildData_aux (ps : List (JSString × JSString)) :
    ∀ m : List (JSString × JSString), ((m ++ ps).map Prod.fst).Nodup →
      ps.foldl (fun m p => objInsert m p.1 p.2) m =
        m ++ ps.filter (fun p => decide (p.1 ≠ js "__proto__")) := by
  induction ps with
  | nil => intro m _; simp
  | cons p rest ih =>
    intro m hnodup
    obtain ⟨k, v⟩ := p
    by_cases hp : k = js "__proto__"
    · have hins : objInsert m k v = m := by simp [objInsert, hp]
      have hnodup' : ((m ++ rest).map Prod.fst).Nodup := by
        refine List.Nodup.sublist (List.Sublist.map Prod.fst ?_) hnodup
        exact (List.sublist_cons_self _ _).append_left m
      rw [List.foldl_cons, hins, ih m hnodup']
      simp [List.filter_cons, hp]
    · have hkm : k ∉ m.map Prod.fst := by
        rw [List.map_append, List.map_cons, List.nodup_append] at hnodup
        intro hmem
        exact hnodup.2.2 hmem (List.mem_cons_self _ _)
      have hlook : lookupStr m k = none := (lookupStr_eq_none_iff _ _).mpr hkm
      have hins : objInsert m k v = m ++ [(k, v)] := by
        simp [objInsert, hp, hlook]
      have hnodup' : (((m ++ [(k, v)]) ++ rest).map Prod.fst).Nodup := by
        rw [List.append_assoc, List.singleton_append]
        exact hnodup
      rw [List.foldl_cons, hins, ih (m ++ [(k, v)]) hnodup']
      simp [List.filter_cons, hp, List.append_assoc]

theorem buildData_of_nodup {ps : List (JSString × JSString)}
    (h : (ps.map Prod.fst).Nodup) :
    buildData ps = ps.filter (fun p => decide (p.1 ≠ js "__proto__")) := by
  have := buildData_aux ps [] (by simpa using h)
  simpa [buildData] using this

theorem insertionSort_filter_hash (keys : List JSString) :
    (List.insertionSort (· ≤ ·) keys).filter (fun k => decide (k ≠ js "hash")) =
      List.insertionSort (· ≤ ·) (keys.filter (fun k => decide (k ≠ js "hash"))) := by
  apply List.eq_of_perm_of_sorted (r := (· ≤ ·))
  · exact ((List.perm_insertionSort _ _).filter _).trans
      (List.perm_insertionSort _ _).symm
  · exact (List.sorted_insertionSort _ _).filter _
  · exact List.sorted_insertionSort _ _

theorem filterMap_skip_hash (f : JSString → JSString) (l : List JSString) :
    l.filterMap (fun k => if k = js "hash" then none else some (f k)) =
      (l.filter (fun k => decide (k ≠ js "hash"))).map f := by
  induction l with
  | nil => rfl
  | cons a l ih =>
    by_cases h : a = js "hash" <;>
      simp [List.filterMap_cons, List.filter_cons, h, ih]

/-- The source's check-string (sort all keys, then skip `hash`)
coincides with the specification's canonical check-string (drop
`hash`, then sort). -/
theorem checkStringOf_eq_canonical (data : List (JSString × JSString)) :
    checkStringOf data = canonicalCheckString data := by
  unfold checkStringOf canonicalCheckString checkArr
  rw [filterMap_skip_hash, insertionSort_filter_hash]

theorem checkArr_perm {d₁ d₂ : List (JSString × JSString)} (hperm : d₁.Perm d₂)
    (hnodup : (d₁.map Prod.fst).Nodup) : checkArr d₁ = checkArr d₂ := by
  have hkeys : List.insertionSort (· ≤ ·) (d₁.map Prod.fst) =
      List.insertionSort (· ≤ ·) (d₂.map Prod.fst) := by
    apply List.eq_of_perm_of_sorted (r := (· ≤ ·))
    · exact (List.perm_insertionSort _ _).trans
        ((hperm.map Prod.fst).trans (List.perm_insertionSort _ _).symm)
    · exact List.sorted_insertionSort _ _
    · exact List.sorted_insertionSort _ _
  have hlook : ∀ k, lookupStr d₁ k = lookupStr d₂ k := lookupStr_perm hperm hnodup
  unfold checkArr
  rw [hkeys]
  simp only [hlook]

theorem toHex_ne_nil {bs : List Nat} (h : bs ≠ []) : toHex bs ≠ [] := by
  cases bs with
  | nil => exact absurd rfl h
  | cons b r => simp [toHex, byteToHex]

theorem verify_eq_false_of_no_hash (hmacSHA256 : List Nat → List Nat → List Nat)
    (raw secret : JSString)
    (h : lookupStr (buildData (parseParams raw)) (js "hash") = none) :
    verifyTelegramInitData hmacSHA256 raw secret = false := by
  unfold verifyTelegramInitData
  split
  · rfl
  · simp [h]

/-- C2: the verifier rejects empty input, an empty secret, and a
missing `hash` field; otherwise it accepts exactly when the `hash`
value equals, character for character, the lowercase hexadecimal
HMAC-SHA-256 of the canonical check-string under the derived key
`HMAC-SHA-256(key = "WebAppData", message = secret)`. The HMAC engine
is any function with the 256-bit digest length of its contract. -/
theorem verify_characterization
    (hmacSHA256 : List Nat → List Nat → List Nat)
    (hlen : ∀ k m, (hmacSHA256 k m).length = 32)
    (raw secret : JSString) :
    verifyTelegramInitData hmacSHA256 raw secret =
      (decide (raw ≠ []) && decide (secret ≠ []) &&
        match lookupStr (buildData (parseParams raw)) (js "hash") with
        | none => false
        | some h =>
          decide (h = toHex (hmacSHA256
            (hmacSHA256 (utf8Encode (js "WebAppData")) (utf8Encode secret))
            (utf8Encode (canonicalCheckString (buildData (parseParams raw))))))) := by
  by_cases hraw : raw = []
  · simp [verifyTelegramInitData, hraw]
  by_cases hsec : secret = []
  · simp [verifyTelegramInitData, hraw, hsec]
  unfold verifyTelegramInitData
  rw [if_neg (by simp [hraw, hsec])]
  rw [show decide (raw ≠ []) = true by simp [hraw],
      show decide (secret ≠ []) = true by simp [hsec]]
  simp only [Bool.true_and]
  cases hl : lookupStr (buildData (parseParams raw)) (js "hash") with
  | none => rfl
  | some hv =>
    dsimp only
    by_cases hh : hv = []
    · subst hh
      rw [if_pos rfl]
      have hne : toHex (hmacSHA256
          (hmacSHA256 (utf8Encode (js "WebAppData")) (utf8Encode secret))
          (utf8Encode (canonicalCheckString (buildData (parseParams raw))))) ≠ [] := by
        apply toHex_ne_nil
        intro h0
        have hl32 := hlen (hmacSHA256 (utf8Encode (js "WebAppData")) (utf8Encode secret))
          (utf8Encode (canonicalCheckString (buildData (parseParams raw))))
        rw [h0] at hl32
        simp at hl32
      rw [decide_eq_false (fun h0 => hne h0.symm)]
    · rw [if_neg hh, checkStringOf_eq_canonical]
      simp [eq_comm]

/-- Witness for C2 at an input the verifier accepts: the stand-in
digest of 32 zero bytes renders as 64 zero hex digits. -/
theorem verify_characterization_witness :
    (∀ k m, (constHmac k m).length = 32) ∧
    verifyTelegramInitData constHmac
        (js "a=1&hash=0000000000000000000000000000000000000000000000000000000000000000")
        (js "S") = true := by
  refine ⟨constHmac_length, ?_⟩
  rw [verify_characterization constHmac constHmac_length]
  decide

/-- C8: permuting the decoded key=value pairs of the launch data
(field names unique, per the data-model invariant) changes neither
the check-string that the verifier signs nor its Boolean result, for
every HMAC engine and secret. -/
theorem verify_order_independent
    (hmacSHA256 : List Nat → List Nat → List Nat) (raw1 raw2 secret : JSString)
    (hperm : (parseParams raw1).Perm (parseParams raw2))
    (hnodup : ((parseParams raw1).map Prod.fst).Nodup) :
    checkStringOf (buildData (parseParams raw1)) =
      checkStringOf (buildData (parseParams raw2)) ∧
    verifyTelegramInitData hmacSHA256 raw1 secret =
      verifyTelegramInitData hmacSHA256 raw2 secret := by
  have hnodup2 : ((parseParams raw2).map Prod.fst).Nodup :=
    ((hperm.map Prod.fst).nodup_iff).mp hnodup
  have hd1 := buildData_of_nodup hnodup
  have hd2 := buildData_of_nodup hnodup2
  have hdperm : (buildData (parseParams raw1)).Perm (buildData (parseParams raw2)) := by
    rw [hd1, hd2]
    exact hperm.filter _
  have hdnodup : ((buildData (parseParams raw1)).map Prod.fst).Nodup := by
    rw [hd1]
    exact List.Nodup.sublist (List.Sublist.map Prod.fst (List.filter_sublist _)) hnodup
  have hcheck : checkStringOf (buildData (parseParams raw1)) =
      checkStringOf (buildData (parseParams raw2)) := by
    unfold checkStringOf
    rw [checkArr_perm hdperm hdnodup]
  refine ⟨hcheck, ?_⟩
  have hlook := lookupStr_perm hdperm hdnodup (js "hash")
  cases hl1 : lookupStr (buildData (parseParams raw1)) (js "hash") with
  | none =>
    rw [verify_eq_false_of_no_hash _ _ secret hl1,
        verify_eq_false_of_no_hash _ _ secret (hlook ▸ hl1)]
  | some hv =>
    have hl2 : lookupStr (buildData (parseParams raw2)) (js "hash") = some hv :=
      hlook ▸ hl1
    have hne1 : parseParams raw1 ≠ [] := by
      intro h0
      rw [h0] at hl1
      exact Option.noConfusion hl1
    have hne2 : parseParams raw2 ≠ [] := by
      intro h0
      exact hne1 (List.Perm.eq_nil (h0 ▸ hperm))
    have hraw1 : raw1 ≠ [] := by
      intro h0
      apply hne1
      rw [h0]
      rfl
    have hraw2 : raw2 ≠ [] := by
      intro h0
      apply hne2
      rw [h0]
      rfl
    by_cases hsec : secret = []
    · unfold verifyTelegramInitData
      rw [if_pos (by simp [hsec]), if_pos (by simp [hsec])]
    · unfold verifyTelegramInitData
      rw [if_neg (by simp [hraw1, hsec]), if_neg (by simp [hraw2, hsec])]
      simp only [hl1, hl2, hcheck]

/-- Witness for C8 at a shuffled pair of launch-data strings. -/
theorem verify_order_independent_witness :
    (parseParams (js "b=2&a=1&hash=h")).Perm (parseParams (js "a=1&hash=h&b=2")) ∧
    ((parseParams (js "b=2&a=1&hash=h")).map Prod.fst).Nodup ∧
    checkStringOf (buildData (parseParams (js "b=2&a=1&hash=h"))) =
      checkStringOf (buildData (parseParams (js "a=1&hash=h&b=2"))) ∧
    verifyTelegramInitData constHmac (js "b=2&a=1&hash=h") (js "S") =
      verifyTelegramInitData constHmac (js "a=1&hash=h&b=2") (js "S") := by
  have h := verify_order_independent constHmac (js "b=2&a=1&hash=h")
    (js "a=1&hash=h&b=2") (js "S") (by decide) (by decide)
  exact ⟨by decide, by decide, h.1, h.2⟩

/-- C10: the tip handler hands generateTip sanitized values: the
level it passes is the lowercased request level when that is one of
beginner, intermediate or advanced, and `"beginner"` otherwise (so
it always lies in the allowed set); the errors it passes are the
empty list when `errors` is not an array, and otherwise the first 20
entries, each stringified and cut to 200 characters. -/
theorem tip_sanitization :
    (∀ (hmacSHA256 : List Nat → List Nat → List Nat) (method : JSString)
        (body : Option TipRequestBody) (botToken : JSString),
      (handler hmacSHA256 method body botToken).tipInvoked = true →
      (handler hmacSHA256 method body botToken).tipLevel =
          some (finalLevelOf (body.getD ⟨none, none, none⟩).level) ∧
      (handler hmacSHA256 method body botToken).tipErrors =
          some (errsOf (body.getD ⟨none, none, none⟩).errors)) ∧
    (∀ level : Option Json, finalLevelOf level ∈ allowedLevels) ∧
    (∀ v : Json, jsTruthy v = true →
      jsToLower (jsStringOfJson v) ∈ allowedLevels →
      finalLevelOf (some v) = jsToLower (jsStringOfJson v)) ∧
    (∀ v : Json, jsTruthy v = true →
      jsToLower (jsStringOfJson v) ∉ allowedLevels →
      finalLevelOf (some v) = js "beginner") ∧
    (∀ errors : Option Json, (∀ xs, errors ≠ some (Json.arr xs)) → errsOf errors = []) ∧
    (∀ xs : List Json,
      errsOf (some (Json.arr xs)) = (xs.take 20).map (fun s => (jsStringOfJson s).take 200)) ∧
    (∀ errors : Option Json,
      (errsOf errors).length ≤ 20 ∧ ∀ e ∈ errsOf errors, e.length ≤ 200) := by
  refine ⟨?_, ?_, ?_, ?_, ?_, ?_, ?_⟩
  · intro hmacSHA256 method body botToken
    simp only [handler, JsPromise.truthy]
    split_ifs <;> simp_all
  · intro level
    unfold finalLevelOf
    split_ifs with h
    · exact h
    · decide
  · intro v ht hmem
    have hn : normLevelOf (some v) = jsToLower (jsStringOfJson v) := by
      unfold normLevelOf
      simp [ht]
    unfold finalLevelOf
    rw [hn, if_pos hmem]
  · intro v ht hmem
    have hn : normLevelOf (some v) = jsToLower (jsStringOfJson v) := by
      unfold normLevelOf
      simp [ht]
    unfold finalLevelOf
    rw [hn, if_neg hmem]
  · intro errors h
    match errors with
    | none => rfl
    | some .null => rfl
    | some (.bool b) => rfl
    | some (.num lex) => rfl
    | some (.str s) => rfl
    | some (.obj fields) => rfl
    | some (.arr xs) => exact absurd rfl (h xs)
  · intro xs
    rfl
  · intro errors
    constructor
    · match errors with
      | none => simp [errsOf]
      | some .null => simp [errsOf]
      | some (.bool b) => simp [errsOf]
      | some (.num lex) => simp [errsOf]
      | some (.str s) => simp [errsOf]
      | some (.obj fields) => simp [errsOf]
      | some (.arr xs) =>
        simp only [errsOf, List.length_map]
        exact le_trans (List.length_take_le _ _) (le_refl 20)
    · intro e he
      match errors with
      | none => simp [errsOf] at he
      | some .null => simp [errsOf] at he
      | some (.bool b) => simp [errsOf] at he
      | some (.num lex) => simp [errsOf] at he
      | some (.str s) => simp [errsOf] at he
      | some (.obj fields) => simp [errsOf] at he
      | some (.arr xs) =>
        simp only [errsOf, List.mem_map] at he
        obtain ⟨s, _, rfl⟩ := he
        exact List.length_take_le _ _

/-- Witness for C10 at an accepted request with an uppercase level
and one numeric error entry. -/
theorem tip_sanitization_witness :
    (handler constHmac (js "POST")
        (some ⟨some (Json.str (js "ADVANCED")), some (Json.arr [Json.num (js "5")]),
          some (Json.str (js "a=1"))⟩) (js "T")).tipInvoked = true ∧
    (handler constHmac (js "POST")
        (some ⟨some (Json.str (js "ADVANCED")), some (Json.arr [Json.num (js "5")]),
          some (Json.str (js "a=1"))⟩) (js "T")).tipLevel =
      some (finalLevelOf (some (Json.str (js "ADVANCED")))) ∧
    jsTruthy (Json.str (js "ADVANCED")) = true ∧
    jsToLower (jsStringOfJson (Json.str (js "ADVANCED"))) ∈ allowedLevels ∧
    finalLevelOf (some (Json.str (js "ADVANCED"))) =
      jsToLower (jsStringOfJson (Json.str (js "ADVANCED"))) :=
  ⟨by decide,
   (tip_sanitization.1 constHmac (js "POST")
     (some ⟨some (Json.str (js "ADVANCED")), some (Json.arr [Json.num (js "5")]),
       some (Json.str (js "a=1"))⟩) (js "T") (by decide)).1,
   by decide, by decide,
   tip_sanitization.2.2.1 (Json.str (js "ADVANCED")) (by decide) (by decide)⟩

end StudentioBot
